import Mathlib

/-!
Verification of the nomad page-fetch subsystem against its specification.

This file gives a shallow embedding of the core of the repository:
the page-fetch state machine (src/network/client.rs, fetch_page_inner and
its helpers), the caller-facing request handle (src/network/page_request.rs),
the announce handler (NetworkClient::handle_announce) and the saved-node
registry (src/network/node_registry.rs).

Bytes are modelled as List Nat (each entry a value 0..255), MessagePack
values as an inductive MpVal, and the effects of one fetch task as an
ordered trace of events (status sends, the one-shot result send, transport
operations and cancellation observations).  External collaborators (the
reticulum Transport, the tokio channels, the resource manager, sha256 and
the toml serializer) are modelled as oracle inputs: a Script records the
answers the environment gives at each suspension point, and abstract
functions stand for the external hash/serializer computations.
-/

set_option maxHeartbeats 1000000

deriving instance DecidableEq for Except

namespace Nomad

/-! ## PageStatus (src/network/page_request.rs, enum PageStatus) -/

/-- Progress stages reported on the watch channel; mirrors `enum PageStatus`. -/
inductive PageStatus
  | requestingPath
  | waitingForAnnounce
  | pathFound (hops : Nat)
  | connecting
  | linkEstablished
  | sendingRequest
  | awaitingResponse
  | retrieving (partsReceived totalParts : Nat)
  | complete
  | cancelled
  | failed (msg : String)
deriving DecidableEq, Repr

/-- A status is terminal when it is Complete, Cancelled or Failed. -/
def PageStatus.isTerminal : PageStatus → Bool
  | .complete => true
  | .cancelled => true
  | .failed _ => true
  | _ => false

/-! ## UTF-8 (model of Rust String::from_utf8 / str::as_bytes) -/

/-- UTF-8 encoding of one scalar value; mirrors the standard encoding used
by Rust str::as_bytes. -/
def utf8EncodeChar (c : Char) : List Nat :=
  let n := c.toNat
  if n < 0x80 then [n]
  else if n < 0x800 then [0xC0 + n / 64, 0x80 + n % 64]
  else if n < 0x10000 then
    [0xE0 + n / 4096, 0x80 + n / 64 % 64, 0x80 + n % 64]
  else
    [0xF0 + n / 262144, 0x80 + n / 4096 % 64, 0x80 + n / 64 % 64, 0x80 + n % 64]

/-- The byte sequence of a Rust string, as in path.as_bytes(). -/
def strBytes (s : String) : List Nat :=
  s.data.foldr (fun c acc => utf8EncodeChar c ++ acc) []

/-- Is b a UTF-8 continuation byte. -/
def isCont (b : Nat) : Bool := 0x80 ≤ b && b ≤ 0xBF

/-- Strict UTF-8 decoding (rejecting overlong forms and surrogates),
accumulator form; mirrors Rust String::from_utf8 validity. -/
def utf8DecodeAux : List Nat → List Char → Option (List Char)
  | [], acc => some acc.reverse
  | b :: rest, acc =>
    if b < 0x80 then utf8DecodeAux rest (Char.ofNat b :: acc)
    else if 0xC2 ≤ b && b ≤ 0xDF then
      match rest with
      | b1 :: r =>
        if isCont b1 then
          utf8DecodeAux r (Char.ofNat ((b - 0xC0) * 64 + (b1 - 0x80)) :: acc)
        else none
      | [] => none
    else if 0xE0 ≤ b && b ≤ 0xEF then
      match rest with
      | b1 :: b2 :: r =>
        let lo1 := if b = 0xE0 then 0xA0 else 0x80
        let hi1 := if b = 0xED then 0x9F else 0xBF
        if lo1 ≤ b1 && b1 ≤ hi1 && isCont b2 then
          utf8DecodeAux r
            (Char.ofNat ((b - 0xE0) * 4096 + (b1 - 0x80) * 64 + (b2 - 0x80)) :: acc)
        else none
      | _ => none
    else if 0xF0 ≤ b && b ≤ 0xF4 then
      match rest with
      | b1 :: b2 :: b3 :: r =>
        let lo1 := if b = 0xF0 then 0x90 else 0x80
        let hi1 := if b = 0xF4 then 0x8F else 0xBF
        if lo1 ≤ b1 && b1 ≤ hi1 && isCont b2 && isCont b3 then
          utf8DecodeAux r
            (Char.ofNat ((b - 0xF0) * 262144 + (b1 - 0x80) * 4096
              + (b2 - 0x80) * 64 + (b3 - 0x80)) :: acc)
        else none
      | _ => none
    else none

/-- Decode a byte list as UTF-8, as Rust String::from_utf8(...).ok(). -/
def utf8Decode (bs : List Nat) : Option String :=
  (utf8DecodeAux bs []).map fun cs => String.mk cs

/-! ## MessagePack values

The on-wire payloads are MessagePack; the rmp_serde typed decoders used by
the code are modelled at the value level over this type. -/

/-- A MessagePack value.  Floats are carried as an opaque 64-bit pattern,
since no claim inspects their numeric content. -/
inductive MpVal
  | nil
  | boolean (b : Bool)
  | int (n : Int)
  | float (bits : Nat)
  | str (s : String)
  | bin (bytes : List Nat)
  | arr (elems : List MpVal)
  | map (pairs : List (MpVal × MpVal))

/-- rmp_serde decoding of Vec of u8: accepts a bin blob or an array of
integers each in 0..255. -/
def decBytes : MpVal → Option (List Nat)
  | .bin bs => some bs
  | .arr es =>
    es.mapM fun e =>
      match e with
      | .int n => if 0 ≤ n ∧ n < 256 then some n.toNat else none
      | _ => none
  | _ => none

/-- rmp_serde decoding of the one-shot response tuple
(f64, Vec of u8, Option of Vec of u8);
mirrors the typed from_slice in parse_page_response. -/
def decodePageResp : MpVal → Option (Nat × List Nat × Option (List Nat))
  | .arr [.float ts, h, c] => do
    let hb ← decBytes h
    let cb ← match c with
      | .nil => some none
      | v => (decBytes v).map some
    some (ts, hb, cb)
  | _ => none

/-- Stands for the Display text of the rmp_serde decode error interpolated
into the fail message; no claim inspects it. -/
def decodeErrDetail : String := "decode error"

/-- Stands for the Display text of the Utf8Error interpolated into the fail
message; no claim inspects it. -/
def utf8ErrDetail : String := "invalid utf-8 sequence"

/-- Model of fn parse_page_response (src/network/client.rs): decode the
tuple, require a present third element, then UTF-8 decode it. -/
def parse_page_response (data : MpVal) : Except String String :=
  match decodePageResp data with
  | none => .error ("Failed to parse response: " ++ decodeErrDetail)
  | some (_, _, none) => .error "No content in response"
  | some (_, _, some bs) =>
    match utf8Decode bs with
    | some s => .ok s
    | none => .error ("Invalid UTF-8: " ++ utf8ErrDetail)

/-- rmp_serde decoding of serde_bytes ByteBuf: a bin blob or a str (whose
raw bytes are taken). -/
def decByteBuf : MpVal → Option (List Nat)
  | .bin bs => some bs
  | .str s => some (strBytes s)
  | _ => none

/-- Model of fn parse_resource_content (src/network/client.rs): decode the
resource tuple (ByteBuf, ByteBuf) and UTF-8 decode the second element. -/
def parse_resource_content (data : MpVal) : Except String String :=
  match data with
  | .arr [a, b] =>
    match decByteBuf a, decByteBuf b with
    | some _, some bs =>
      match utf8Decode bs with
      | some s => .ok s
      | none => .error ("Invalid UTF-8: " ++ utf8ErrDetail)
    | _, _ => .error ("Failed to parse resource response: " ++ decodeErrDetail)
  | _ => .error ("Failed to parse resource response: " ++ decodeErrDetail)

/-! ## Byte-level MessagePack element decoding for parse_display_name

parse_display_name (src/network/client.rs) branches on the raw first byte
of app_data and then runs two rmp_serde typed decodes over the raw bytes,
so this part is modelled at the byte level. -/

/-- Read n bytes from the list, returning them and the remainder. -/
def readN : Nat → List Nat → Option (List Nat × List Nat)
  | 0, rest => some ([], rest)
  | _ + 1, [] => none
  | n + 1, b :: rest => (readN n rest).map fun p => (b :: p.1, p.2)

/-- Read a MessagePack array header (fixarray, array16 or array32),
returning the element count and the remainder. -/
def readArrayHeader : List Nat → Option (Nat × List Nat)
  | [] => none
  | m :: rest =>
    if 0x90 ≤ m && m ≤ 0x9F then some (m - 0x90, rest)
    else if m = 0xDC then
      match rest with
      | a :: b :: r => some (a * 256 + b, r)
      | _ => none
    else if m = 0xDD then
      match rest with
      | a :: b :: c :: d :: r => some (((a * 256 + b) * 256 + c) * 256 + d, r)
      | _ => none
    else none

/-- Read one integer that fits in a u8, as serde deserializes u8 from any
MessagePack integer marker whose value is in 0..=255: positive fixint,
uint8/16/32/64 and int8/16/32/64 with the high bytes zero. -/
def readU8 : List Nat → Option (Nat × List Nat)
  | [] => none
  | m :: rest =>
    if m ≤ 0x7F then some (m, rest)
    else if m = 0xCC then
      match rest with
      | b :: r => some (b, r)
      | [] => none
    else if m = 0xCD || m = 0xD1 then
      match rest with
      | a :: b :: r => if a = 0 then some (b, r) else none
      | _ => none
    else if m = 0xCE || m = 0xD2 then
      match rest with
      | a :: b :: c :: d :: r =>
        if a = 0 && b = 0 && c = 0 then some (d, r) else none
      | _ => none
    else if m = 0xCF || m = 0xD3 then
      match rest with
      | a :: b :: c :: d :: e :: f :: g :: h :: r =>
        if a = 0 && b = 0 && c = 0 && d = 0 && e = 0 && f = 0 && g = 0 then
          some (h, r)
        else none
      | _ => none
    else if m = 0xD0 then
      match rest with
      | b :: r => if b ≤ 0x7F then some (b, r) else none
      | [] => none
    else none

/-- Read n integers each fitting a u8, as serde_bytes ByteBufVisitor reads
a sequence element by element. -/
def readU8Seq : Nat → List Nat → Option (List Nat × List Nat)
  | 0, rest => some ([], rest)
  | n + 1, bs =>
    (readU8 bs).bind fun p =>
      (readU8Seq n p.2).map fun q => (p.1 :: q.1, q.2)

/-- Read one String element: rmp forwards str and bin markers to the
String visitor (str text and byte visits), which accepts nothing else;
returns the raw payload bytes and the remainder. -/
def readStrElem : List Nat → Option (List Nat × List Nat)
  | [] => none
  | m :: rest =>
    if 0xA0 ≤ m && m ≤ 0xBF then readN (m - 0xA0) rest
    else if m = 0xC4 || m = 0xD9 then
      match rest with
      | l :: r => readN l r
      | [] => none
    else if m = 0xC5 || m = 0xDA then
      match rest with
      | a :: b :: r => readN (a * 256 + b) r
      | _ => none
    else if m = 0xC6 || m = 0xDB then
      match rest with
      | a :: b :: c :: d :: r => readN (((a * 256 + b) * 256 + c) * 256 + d) r
      | _ => none
    else none

/-- Read one serde_bytes ByteBuf element.  rmp dispatches on the marker:
str and bin markers give their raw payload, and an array marker is
forwarded as a sequence, which ByteBufVisitor accepts element by element
as u8 integers (visit_seq); all other markers fail. -/
def readBytesElem (bs : List Nat) : Option (List Nat × List Nat) :=
  match readStrElem bs with
  | some p => some p
  | none =>
    match readArrayHeader bs with
    | some nr => readU8Seq nr.1 nr.2
    | none => none

/-- Read n elements each decoded as Option of ByteBuf: a nil marker gives
none, otherwise a bytes element. -/
def readOptBytesElems : Nat → List Nat → Option (List (Option (List Nat)) × List Nat)
  | 0, rest => some ([], rest)
  | _ + 1, [] => none
  | n + 1, m :: rest =>
    if m = 0xC0 then
      (readOptBytesElems n rest).map fun p => (none :: p.1, p.2)
    else
      (readBytesElem (m :: rest)).bind fun p =>
        (readOptBytesElems n p.2).map fun q => (some p.1 :: q.1, q.2)

/-- Read n elements each decoded as Option of String: a nil marker gives
none, otherwise a bytes element that must be valid UTF-8. -/
def readOptStringElems : Nat → List Nat → Option (List (Option String) × List Nat)
  | 0, rest => some ([], rest)
  | _ + 1, [] => none
  | n + 1, m :: rest =>
    if m = 0xC0 then
      (readOptStringElems n rest).map fun p => (none :: p.1, p.2)
    else
      (readStrElem (m :: rest)).bind fun p =>
        (utf8Decode p.1).bind fun s =>
          (readOptStringElems n p.2).map fun q => (some s :: q.1, q.2)

/-- Model of rmp_serde from_slice for Vec of Option of ByteBuf. -/
def decodeVecOptBytes (data : List Nat) : Option (List (Option (List Nat))) :=
  (readArrayHeader data).bind fun p => (readOptBytesElems p.1 p.2).map Prod.fst

/-- Model of rmp_serde from_slice for Vec of Option of String. -/
def decodeVecOptString (data : List Nat) : Option (List (Option String)) :=
  (readArrayHeader data).bind fun p => (readOptStringElems p.1 p.2).map Prod.fst

/-- The second typed decode attempt in parse_display_name, reached only
when the ByteBuf decode did not return a first element. -/
def secondNameParse (appData : List Nat) : Option String :=
  match decodeVecOptString appData with
  | some elems =>
    match elems.head? with
    | some nm => nm
    | none => none
  | none => none

/-- Model of fn parse_display_name (src/network/client.rs). -/
def parse_display_name (appData : List Nat) : Option String :=
  match appData with
  | [] => none
  | b :: _ =>
    if (0x90 ≤ b && b ≤ 0x9F) || b = 0xDC then
      match decodeVecOptBytes appData with
      | some elems =>
        match elems.head? with
        | some (some nameBytes) => utf8Decode nameBytes
        | _ => secondNameParse appData
      | none => secondNameParse appData
    else utf8Decode appData

/-! ## Request encoding (fn send_page_request, fn compute_path_hash) -/

/-- Packet contexts relevant to the core; the reticulum default for a data
packet, and the Request context the code assigns before sending. -/
inductive PacketContext
  | normal
  | request
deriving DecidableEq, Repr

/-- An outbound packet at the level the claims need: its context and its
MessagePack payload. -/
structure OutPacket where
  context : PacketContext
  payload : MpVal

/-- Model of fn compute_path_hash: sha256 of the path bytes truncated to
its first 16 bytes.  sha256 is an oracle parameter standing for the
external sha2 crate. -/
def compute_path_hash (sha256 : List Nat → List Nat) (path : String) : List Nat :=
  (sha256 (strBytes path)).take 16

/-- Model of fn send_page_request (src/network/client.rs): the packed
request tuple and the packet context, with the timestamp bits and sha256
as oracle inputs.  Form data is an association list standing for the
HashMap in iteration order. -/
def send_page_request (sha256 : List Nat → List Nat) (ts : Nat) (path : String)
    (formData : List (String × String)) : OutPacket :=
  let pathHash := compute_path_hash sha256 path
  let packed : MpVal :=
    if formData.isEmpty then
      .arr [.float ts, .bin pathHash, .nil]
    else
      .arr [.float ts, .bin pathHash,
        .map (formData.map fun kv => (.str kv.1, .str kv.2))]
  { context := .request, payload := packed }

/-! ## FetchRequest public handle (src/network/page_request.rs) -/

/-- The receiver half of the one-shot result channel: the outer Option is
whether the receiver is still present (take), the inner Option is whether
the sender sent a value before being dropped. -/
structure FetchRequest where
  resultRx : Option (Option (Except String (List Nat)))

/-- The watch channel is created already holding RequestingPath
(FetchRequestHandle::new). -/
def initialStatus : PageStatus := .requestingPath

/-- Model of FetchRequest::result: take the receiver; a missing receiver
yields the already-consumed error, a dropped sender yields the cancelled
error, otherwise the sent value. -/
def FetchRequest.result (fr : FetchRequest) : Except String (List Nat) × FetchRequest :=
  match fr.resultRx with
  | some chan =>
    (match chan with
     | some v => v
     | none => .error "Request cancelled", { resultRx := none })
  | none => (.error "Result already consumed", { resultRx := none })

/-! ## The fetch state machine (fn fetch_page_inner and helpers)

One fetch task is modelled as a function from a Script (the answers the
environment gives at each suspension point) to an ordered trace of events.
The trace records every send on the status watch channel, the single-shot
result send, every transport operation, and each cooperative cancellation
check that observed the token set. -/

/-- Transport operations issued by the state machine. -/
inductive TOp
  | hasPath
  | requestPath
  | pathHops
  | linkCreate
  | sendPacket
deriving DecidableEq, Repr

/-- One observable event of a fetch task. -/
inductive Ev
  | status (s : PageStatus)
  | result (r : Except String String)
  | op (o : TOp)
  | cancelObs
deriving DecidableEq, Repr

/-- Outcome of one ResourceManager::handle_packet call together with the
data the surrounding branch reads afterwards (resource_info snapshots,
whether a request packet was produced, the assembled bytes).  The
ResourceManager lives in the external reticulum crate, so it is an oracle. -/
inductive ResourceOutcome
  | requestParts (info : Option (Nat × Nat)) (reqPacket : Bool)
  | assemble (info : Option Nat) (assembled : Option MpVal)
  | dropped (info : Option (Nat × Nat))

/-- A link event as seen by the state machine. -/
inductive LinkEv
  | activated
  | data (payload : MpVal)
  | resourcePkt (out : ResourceOutcome)
  | closed

/-- Outcome of one timeout(_, link_events.recv()) await: an event (tagged
with whether its id matches this request's link), the broadcast channel
reporting an error (Closed or Lagged), or the timeout elapsing. -/
inductive Recv
  | event (mine : Bool) (ev : LinkEv)
  | chanClosed
  | timedOut

/-- The environment of one fetch task. -/
structure Script where
  hasPath : Bool
  pathPolls : List Bool
  pathHops : Option Nat
  alreadyActive : Bool
  actRecvs : List Recv
  sendErr : Option String
  respRecvs : List Recv
  cancelAt : Option Nat

/-- The cancellation token: it fires at the k-th cooperative check and is
sticky from then on; c counts the checks performed so far. -/
def isCancelledAt (ca : Option Nat) (c : Nat) : Bool :=
  match ca with
  | none => false
  | some k => decide (k ≤ c)

/-- Trace suffix produced by check_cancelled followed by
FetchRequestHandle::cancelled. -/
def cancelTail : List Ev :=
  [.cancelObs, .status .cancelled, .result (.error "Cancelled")]

/-- Trace produced by FetchRequestHandle::fail. -/
def failPair (msg : String) : List Ev :=
  [.status (.failed msg), .result (.error msg)]

/-- Model of fn wait_for_path: each iteration checks the token, then polls
has_path (one entry of the poll list), then sleeps; an exhausted list is
the deadline.  Returns whether a path appeared, the events, and the check
counter. -/
def waitForPath (ca : Option Nat) : List Bool → Nat → Bool × List Ev × Nat
  | [], c => (false, [], c)
  | p :: rest, c =>
    if isCancelledAt ca c then (false, [.cancelObs], c + 1)
    else if p then (true, [.op .hasPath], c + 1)
    else
      let r := waitForPath ca rest (c + 1)
      (r.1, .op .hasPath :: r.2.1, r.2.2)

/-- Result of fn wait_for_link_activation. -/
inductive LinkWaitResult
  | activated
  | closed
  | timeout
deriving DecidableEq, Repr

/-- Model of fn wait_for_link_activation: each iteration checks the token
(mapping an observed cancellation to Closed, as the code does), then
receives one link event; an exhausted list is the deadline.  A broadcast
error maps to Closed, a recv timeout to Timeout; events for other links
and non-activation events of this link are skipped. -/
def waitForLinkAct (ca : Option Nat) : List Recv → Nat → LinkWaitResult × List Ev × Nat
  | [], c => (.timeout, [], c)
  | r :: rest, c =>
    if isCancelledAt ca c then (.closed, [.cancelObs], c + 1)
    else
      match r with
      | .event true .activated => (.activated, [], c + 1)
      | .event true .closed => (.closed, [], c + 1)
      | .chanClosed => (.closed, [], c + 1)
      | .timedOut => (.timeout, [], c + 1)
      | .event _ _ => waitForLinkAct ca rest (c + 1)

/-- The LinkEvent::Data branch of the response loop: parse the one-shot
response; success completes the request, failure fails it. -/
def dataBranch (payload : MpVal) : List Ev :=
  match parse_page_response payload with
  | .ok content => [.status .complete, .result (.ok content)]
  | .error e => failPair e

/-- The LinkEvent::ResourcePacket / Assemble sub-branch after a successful
assemble_and_prove: send the proof packet and parse the resource payload. -/
def assembleSuccess (data : MpVal) : List Ev :=
  .op .sendPacket ::
    (match parse_resource_content data with
     | .ok content => [.status .complete, .result (.ok content)]
     | .error e => failPair e)

/-- Model of the AwaitingResponse event loop of fn fetch_page_inner.
curSet tracks whether current_resource_hash has been set. -/
def respLoop (ca : Option Nat) : List Recv → Nat → Bool → List Ev
  | [], c, _ =>
    if isCancelledAt ca c then cancelTail
    else failPair "Request timed out"
  | r :: rest, c, curSet =>
    if isCancelledAt ca c then cancelTail
    else
      match r with
      | .timedOut => failPair "Request timed out"
      | .chanClosed => failPair "Link events channel closed"
      | .event false _ => respLoop ca rest (c + 1) curSet
      | .event true ev =>
        match ev with
        | .activated => respLoop ca rest (c + 1) curSet
        | .closed => failPair "Link closed"
        | .data payload => dataBranch payload
        | .resourcePkt out =>
          match out with
          | .requestParts info req =>
            (match info with
             | some i => [.status (.retrieving i.1 i.2)]
             | none => []) ++
            (if req then [.op .sendPacket] else []) ++
            respLoop ca rest (c + 1) true
          | .assemble info asm =>
            (match info with
             | some tp => [.status (.retrieving tp tp)]
             | none => []) ++
            (match asm with
             | some data => assembleSuccess data
             | none => failPair "Failed to assemble resource")
          | .dropped info =>
            (if curSet then
              match info with
              | some i => [.status (.retrieving i.1 i.2)]
              | none => []
             else []) ++
            respLoop ca rest (c + 1) curSet

/-- The tail of fn fetch_page_inner after link establishment: the two
status sends, the request send (or its failure), then the response loop. -/
def afterLink (s : Script) (c : Nat) : List Ev :=
  .status .linkEstablished :: .status .sendingRequest ::
    (match s.sendErr with
     | some e => failPair e
     | none => .op .sendPacket :: .status .awaitingResponse ::
         respLoop s.cancelAt s.respRecvs c false)

/-- The connection phase of fn fetch_page_inner: the check before
Connecting, link creation, and the activation wait unless the link is
already active. -/
def connectPhase (s : Script) (c : Nat) : List Ev :=
  if isCancelledAt s.cancelAt c then cancelTail
  else
    .status .connecting :: .op .linkCreate ::
      (if s.alreadyActive then afterLink s (c + 1)
       else
         let w := waitForLinkAct s.cancelAt s.actRecvs (c + 1)
         w.2.1 ++
           match w.1 with
           | .activated => afterLink s w.2.2
           | .closed =>
             if isCancelledAt s.cancelAt w.2.2 then cancelTail
             else failPair "Link closed"
           | .timeout =>
             if isCancelledAt s.cancelAt w.2.2 then cancelTail
             else failPair "Connection timed out")

/-- The phase of fn fetch_page_inner once a path is known: the
check_cancelled at its head, the path_hops query and the optional
PathFound status, then the connection phase. -/
def afterPathKnown (s : Script) (c : Nat) : List Ev :=
  if isCancelledAt s.cancelAt c then cancelTail
  else
    .op .pathHops ::
      ((match s.pathHops with
        | some h => [.status (.pathFound h)]
        | none => []) ++ connectPhase s (c + 1))

/-- Model of fn fetch_page_inner: the full event trace of one fetch task
under the given environment. -/
def runFetch (s : Script) : List Ev :=
  if s.hasPath then
    .op .hasPath :: afterPathKnown s 0
  else
    let w := waitForPath s.cancelAt s.pathPolls 0
    .op .hasPath :: .status .requestingPath :: .op .requestPath ::
      .status .waitingForAnnounce :: w.2.1 ++
        (if w.1 then afterPathKnown s w.2.2
         else
           if isCancelledAt s.cancelAt w.2.2 then cancelTail
           else failPair "No path to node - try again later")

/-- The statuses sent on the watch channel during a run, in order. -/
def statusesOf (t : List Ev) : List PageStatus :=
  t.filterMap fun e =>
    match e with
    | .status s => some s
    | _ => none

/-- The last status sent during a run. -/
def lastStatus (t : List Ev) : Option PageStatus :=
  (statusesOf t).getLast?

/-! ## Node registry (src/network/node_registry.rs) and announce handling
(NetworkClient::handle_announce, src/network/client.rs) -/

/-- Identity public keys as stored in NodeInfo (src/network/types.rs). -/
structure IdentityInfo where
  public_key : List Nat
  verifying_key : List Nat
deriving DecidableEq, Repr

/-- A persistable saved-node entry (src/network/types.rs). -/
structure NodeInfo where
  hash : List Nat
  name : String
  identity : IdentityInfo
deriving DecidableEq, Repr

/-- An ephemeral peer entry (src/network/types.rs). -/
structure PeerInfo where
  hash : List Nat
  name : Option String
  identity : IdentityInfo
deriving DecidableEq, Repr

/-- File-system operations performed by the registry; NodeRegistry::persist
issues a single fs::write of the serialized table. -/
inductive FsOp
  | write (path : String) (contents : String)
  | rename (src dst : String)
deriving DecidableEq, Repr

/-- Insert-or-replace in an association list, modelling HashMap::insert:
the first binding of the key is replaced in place, otherwise the binding is
appended. -/
def alInsert {β : Type} (k : List Nat) (v : β) : List (List Nat × β) → List (List Nat × β)
  | [] => [(k, v)]
  | (k', v') :: rest =>
    if k' = k then (k, v) :: rest else (k', v') :: alInsert k v rest

/-- Lookup in an association list, modelling HashMap::get. -/
def alLookup {β : Type} (k : List Nat) : List (List Nat × β) → Option β
  | [] => none
  | (k', v') :: rest => if k' = k then some v' else alLookup k rest

/-- Remove a key from an association list, modelling HashMap::remove. -/
def alRemove {β : Type} (k : List Nat) : List (List Nat × β) → List (List Nat × β)
  | [] => []
  | (k', v') :: rest =>
    if k' = k then rest else (k', v') :: alRemove k rest

/-- The keys of an association list. -/
def alKeys {β : Type} (l : List (List Nat × β)) : List (List Nat) :=
  l.map Prod.fst

/-- The saved-node registry: its backing file path and its node table,
modelled as an association list standing for the HashMap. -/
structure NodeRegistry where
  path : String
  nodes : List (List Nat × NodeInfo)

/-- Model of NodeRegistry::persist: serialize the whole node table (the
toml serializer is an oracle parameter) and issue one direct write to the
backing path. -/
def NodeRegistry.persist (serialize : List NodeInfo → String) (reg : NodeRegistry) :
    List FsOp :=
  [.write reg.path (serialize (reg.nodes.map Prod.snd))]

/-- Model of NodeRegistry::save: insert the node keyed by its hash, then
persist. -/
def NodeRegistry.save (serialize : List NodeInfo → String) (reg : NodeRegistry)
    (node : NodeInfo) : NodeRegistry × List FsOp :=
  let reg' : NodeRegistry := { reg with nodes := alInsert node.hash node reg.nodes }
  (reg', reg'.persist serialize)

/-- Model of NodeRegistry::contains. -/
def NodeRegistry.containsHash (reg : NodeRegistry) (h : List Nat) : Bool :=
  (alLookup h reg.nodes).isSome

/-- Model of NodeRegistry::update_name: rename an existing entry and
persist; an absent key performs nothing. -/
def NodeRegistry.update_name (serialize : List NodeInfo → String) (reg : NodeRegistry)
    (h : List Nat) (name : String) : NodeRegistry × List FsOp :=
  match alLookup h reg.nodes with
  | some node =>
    let reg' : NodeRegistry := { reg with nodes := alInsert h { node with name := name } reg.nodes }
    (reg', reg'.persist serialize)
  | none => (reg, [])

/-- Model of NodeRegistry::remove: drop the entry and persist when it was
present. -/
def NodeRegistry.remove (serialize : List NodeInfo → String) (reg : NodeRegistry)
    (h : List Nat) : NodeRegistry × List FsOp :=
  match alLookup h reg.nodes with
  | some _ =>
    let reg' : NodeRegistry := { reg with nodes := alRemove h reg.nodes }
    (reg', reg'.persist serialize)
  | none => (reg, [])

/-- A destination descriptor at the level handle_announce reads it: its
16-byte address hash and the name-hash slice of its two-part name.  The
hashing itself lives in the reticulum crate. -/
structure DestinationDesc where
  addressHash : List Nat
  nameHash : List Nat
deriving DecidableEq, Repr

/-- The constant destination name of a nomadnetwork node. -/
def nomadNodeName : String × String := ("nomadnetwork", "node")

/-- Model of fn is_node_announce_desc: compare the descriptor's name-hash
slice against the hash of the constant tuple; nameHashOf is the oracle for
DestinationName::new hashing. -/
def is_node_announce_desc (nameHashOf : String × String → List Nat)
    (desc : DestinationDesc) : Bool :=
  desc.nameHash = nameHashOf nomadNodeName

/-- The NetworkClient state touched by handle_announce: the destination
cache, the registry, the two broadcast logs, and the file operations the
registry issued. -/
structure ClientState where
  knownDestinations : List (List Nat × DestinationDesc)
  registry : NodeRegistry
  nodeBroadcasts : List NodeInfo
  peerBroadcasts : List PeerInfo
  fsOps : List FsOp

/-- Model of NetworkClient::handle_announce: cache the descriptor, then
classify by destination name hash; node announces are persisted to the
registry and broadcast on the node channel, peer announces are only
broadcast on the peer channel. -/
def handleAnnounce (nameHashOf : String × String → List Nat)
    (serialize : List NodeInfo → String) (st : ClientState)
    (desc : DestinationDesc) (identity : IdentityInfo) (appData : List Nat) :
    ClientState :=
  let st1 : ClientState :=
    { st with knownDestinations := alInsert desc.addressHash desc st.knownDestinations }
  if is_node_announce_desc nameHashOf desc then
    let name := (parse_display_name appData).getD "Unknown"
    let node : NodeInfo := { hash := desc.addressHash, name := name, identity := identity }
    let (reg', ops) := st1.registry.save serialize node
    { st1 with
        registry := reg'
        fsOps := st1.fsOps ++ ops
        nodeBroadcasts := st1.nodeBroadcasts ++ [node] }
  else
    let peer : PeerInfo :=
      { hash := desc.addressHash, name := parse_display_name appData, identity := identity }
    { st1 with peerBroadcasts := st1.peerBroadcasts ++ [peer] }

/-! ## Trace predicates used by the theorems -/

/-- An event that sends a terminal status on the watch channel. -/
def Ev.isTerminalStatus : Ev → Bool
  | .status s => s.isTerminal
  | _ => false

/-- An event that fires the one-shot result channel. -/
def Ev.isResult : Ev → Bool
  | .result _ => true
  | _ => false

/-- An event that neither sends a terminal status nor fires the result. -/
def nonTermEv (e : Ev) : Bool := !e.isTerminalStatus && !e.isResult

/-- The terminal status and the fired result agree: Ok for Complete, the
cancellation error for Cancelled, the failure message for Failed. -/
def StatusResultMatch (st : PageStatus) (r : Except String String) : Prop :=
  (st = .complete ∧ ∃ d, r = .ok d)
    ∨ (st = .cancelled ∧ r = .error "Cancelled")
    ∨ (∃ m, st = .failed m ∧ r = .error m)

/-- A trace in which exactly one terminal status is sent, as the
next-to-last event, followed by the only result firing, and the two agree. -/
def GoodTrace (t : List Ev) : Prop :=
  ∃ pre st r, t = pre ++ [.status st, .result r] ∧ st.isTerminal = true
    ∧ (∀ e ∈ pre, nonTermEv e = true) ∧ StatusResultMatch st r

/-- Once a cooperative check observes the cancellation token, the trace
ends immediately: at most one further observation (the caller re-checking
after a wait helper returned), then the Cancelled status and the
Err Cancelled result, with no transport operation in between or after. -/
def CancelShape (t : List Ev) : Prop :=
  .cancelObs ∈ t →
    ∃ pre, .cancelObs ∉ pre
      ∧ (t = pre ++ cancelTail ∨ t = pre ++ .cancelObs :: cancelTail)

/-- The display-name decoding the spec describes, amended to what the code
computes: inside the array branch the name is returned only when the whole
payload parses as an array whose elements are each nil, a byte-string or
string, or an integer sequence, and whose first element is present and
valid UTF-8; every other case is None, and the second typed parse attempt
of the code never contributes. -/
def displayNameSpec (data : List Nat) : Option String :=
  match data with
  | [] => none
  | b :: _ =>
    if (0x90 ≤ b && b ≤ 0x9F) || b = 0xDC then
      match decodeVecOptBytes data with
      | some elems =>
        match elems.head? with
        | some (some bs) => utf8Decode bs
        | _ => none
      | none => none
    else utf8Decode data

/-- The NodeInfo a node announce constructs inside handle_announce. -/
def announcedNode (desc : DestinationDesc) (idy : IdentityInfo) (appData : List Nat) :
    NodeInfo :=
  { hash := desc.addressHash
    name := (parse_display_name appData).getD "Unknown"
    identity := idy }

/-- The PeerInfo a peer announce constructs inside handle_announce. -/
def announcedPeer (desc : DestinationDesc) (idy : IdentityInfo) (appData : List Nat) :
    PeerInfo :=
  { hash := desc.addressHash
    name := parse_display_name appData
    identity := idy }

/-! ## Theorems -/

/-- C3: the encoded on-wire request is a MessagePack triple of the
timestamp f64, sha256 of the path bytes truncated to its first 16 bytes as
a binary string, and nil for empty form data or the string-to-string map
otherwise; the packet context is set to Request. -/
theorem c3_request_encoding (sha256 : List Nat → List Nat) (ts : Nat) (path : String)
    (formData : List (String × String)) :
    (send_page_request sha256 ts path formData).context = .request
    ∧ (send_page_request sha256 ts path formData).payload =
        .arr [.float ts, .bin ((sha256 (strBytes path)).take 16),
          if formData.isEmpty then MpVal.nil
          else .map (formData.map fun kv => (.str kv.1, .str kv.2))]
    ∧ compute_path_hash sha256 path = (sha256 (strBytes path)).take 16 := by
  refine ⟨rfl, ?_, rfl⟩
  by_cases h : formData.isEmpty <;>
    simp [send_page_request, compute_path_hash, h]

/-- C10: FetchRequest::result is total at the public interface: a sender
dropped without sending yields the Request cancelled error rather than a
hang, a sent value is returned as is, and consuming again yields the
Result already consumed error. -/
theorem c10_result_total (chan : Option (Except String (List Nat))) :
    (FetchRequest.result { resultRx := some chan }).1 =
      (match chan with
       | some v => v
       | none => .error "Request cancelled")
    ∧ (FetchRequest.result (FetchRequest.result { resultRx := some chan }).2).1 =
        .error "Result already consumed" := by
  cases chan <;> exact ⟨rfl, rfl⟩

/-- C7 counterexample: saving a node into an empty registry backed by the
file nodes.toml performs a single direct write, not a write to a temporary
file followed by a rename over the target. -/
theorem c7_counterexample :
    ¬ ∃ tmp contents, tmp ≠ "nodes.toml"
      ∧ (NodeRegistry.save (fun _ => "") { path := "nodes.toml", nodes := [] }
          { hash := [], name := "n",
            identity := { public_key := [], verifying_key := [] } }).2
        = [.write tmp contents, .rename tmp "nodes.toml"] := by
  rintro ⟨tmp, contents, _, h⟩
  simp [NodeRegistry.save, NodeRegistry.persist, alInsert] at h

/-- C7 amended: every mutation of the registry writes through: save, and
update_name and remove of a present key, each serialize the whole new node
table and issue exactly one direct write of it to the backing path (no
temporary file, no rename); update_name and remove of an absent key issue
no file operation at all. -/
theorem c7_direct_write (serialize : List NodeInfo → String) (reg : NodeRegistry)
    (node : NodeInfo) (k : List Nat) (nm : String) :
    (NodeRegistry.save serialize reg node).2 =
      [.write reg.path (serialize ((alInsert node.hash node reg.nodes).map Prod.snd))]
    ∧ (NodeRegistry.update_name serialize reg k nm).2 =
        (match alLookup k reg.nodes with
         | some n0 =>
           [.write reg.path
             (serialize ((alInsert k { n0 with name := nm } reg.nodes).map Prod.snd))]
         | none => [])
    ∧ (NodeRegistry.remove serialize reg k).2 =
        (match alLookup k reg.nodes with
         | some _ =>
           [.write reg.path (serialize ((alRemove k reg.nodes).map Prod.snd))]
         | none => []) := by
  refine ⟨rfl, ?_, ?_⟩
  · cases hl : alLookup k reg.nodes with
    | none => simp [NodeRegistry.update_name, hl]
    | some n0 => simp [NodeRegistry.update_name, NodeRegistry.persist, hl]
  · cases hl : alLookup k reg.nodes with
    | none => simp [NodeRegistry.remove, hl]
    | some n0 => simp [NodeRegistry.remove, NodeRegistry.persist, hl]

/-- The element list produced by readOptBytesElems has exactly the
requested length. -/
theorem readOptBytesElems_length :
    ∀ (n : Nat) (bs : List Nat) (es : List (Option (List Nat))) (r : List Nat),
      readOptBytesElems n bs = some (es, r) → es.length = n := by
  intro n
  induction n with
  | zero =>
    intro bs es r h
    simp [readOptBytesElems] at h
    simp [h.1]
  | succ k ih =>
    intro bs es r h
    cases bs with
    | nil => simp [readOptBytesElems] at h
    | cons m rest =>
      by_cases hm : m = 0xC0
      · simp only [readOptBytesElems, hm, if_pos, Option.map_eq_some'] at h
        obtain ⟨⟨es0, r0⟩, h1, h2⟩ := h
        injection h2 with h2a h2b
        subst h2a
        simp [ih rest es0 r0 h1]
      · simp only [readOptBytesElems] at h
        rw [if_neg hm] at h
        simp only [Option.bind_eq_some, Option.map_eq_some'] at h
        obtain ⟨⟨b0, r0⟩, h1, ⟨es0, r1⟩, h2, h3⟩ := h
        injection h3 with h3a h3b
        subst h3a
        simp [ih r0 es0 r1 h2]


/-- Every element the String reader accepts, the ByteBuf reader accepts
with the same payload: ByteBuf adds only the integer-sequence case. -/
theorem readStrElem_sub (bs : List Nat) (p : List Nat × List Nat)
    (h : readStrElem bs = some p) : readBytesElem bs = some p := by
  simp [readBytesElem, h]

/-- Every payload accepted by the Option-String element reader is accepted
by the Option-ByteBuf element reader, with the same remainder. -/
theorem readOptStringElems_sub :
    ∀ (n : Nat) (bs : List Nat) (es : List (Option String)) (r : List Nat),
      readOptStringElems n bs = some (es, r) →
      ∃ es', readOptBytesElems n bs = some (es', r) := by
  intro n
  induction n with
  | zero =>
    intro bs es r h
    simp [readOptStringElems] at h
    exact ⟨[], by simp [readOptBytesElems, h.2]⟩
  | succ k ih =>
    intro bs es r h
    cases bs with
    | nil => simp [readOptStringElems] at h
    | cons m rest =>
      by_cases hm : m = 0xC0
      · simp only [readOptStringElems, hm, if_pos, Option.map_eq_some'] at h
        obtain ⟨⟨es0, r0⟩, h1, h2⟩ := h
        injection h2 with h2a h2b
        subst h2b
        obtain ⟨es', he⟩ := ih rest es0 r0 h1
        exact ⟨none :: es', by simp [readOptBytesElems, hm, he]⟩
      · simp only [readOptStringElems] at h
        rw [if_neg hm] at h
        simp only [Option.bind_eq_some, Option.map_eq_some'] at h
        obtain ⟨⟨b0, r0⟩, h1, s0, hs0, ⟨es0, r1⟩, h2, h3⟩ := h
        injection h3 with h3a h3b
        subst h3b
        obtain ⟨es', he⟩ := ih r0 es0 r1 h2
        refine ⟨some b0 :: es', ?_⟩
        simp only [readOptBytesElems]
        rw [if_neg hm]
        simp [readStrElem_sub _ _ h1, he]


/-- When the Option-ByteBuf reader returns a list whose first element is
nil, the input began with the nil marker and the count was positive. -/
theorem readOptBytesElems_head_none :
    ∀ (n : Nat) (bs : List Nat) (tail : List (Option (List Nat))) (r : List Nat),
      readOptBytesElems n bs = some (none :: tail, r) →
      ∃ n' r', n = n' + 1 ∧ bs = 0xC0 :: r' := by
  intro n bs tail r h
  cases n with
  | zero => simp [readOptBytesElems] at h
  | succ k =>
    cases bs with
    | nil => simp [readOptBytesElems] at h
    | cons m rest =>
      by_cases hm : m = 0xC0
      · exact ⟨k, rest, rfl, by rw [hm]⟩
      · exfalso
        simp only [readOptBytesElems] at h
        rw [if_neg hm] at h
        simp only [Option.bind_eq_some, Option.map_eq_some'] at h
        obtain ⟨⟨b0, r0⟩, h1, ⟨es0, r1⟩, h2, h3⟩ := h
        injection h3 with h3a h3b
        simp at h3a


/-- C8 counterexample: the app_data payload that MessagePack-encodes the
two-element array of the string Alice and the bare integer 5 begins with
an array header and its first element is the valid UTF-8 string Alice,
yet display-name decoding returns None: a bare integer is not a valid
Option-ByteBuf element (only nil, str, bin and integer sequences are), so
both typed vector parses of the code fail as a whole. -/
theorem c8_counterexample :
    parse_display_name [0x92, 0xA5, 0x41, 0x6C, 0x69, 0x63, 0x65, 0x05] = none
    ∧ readBytesElem [0xA5, 0x41, 0x6C, 0x69, 0x63, 0x65, 0x05] =
        some ([0x41, 0x6C, 0x69, 0x63, 0x65], [0x05])
    ∧ utf8Decode [0x41, 0x6C, 0x69, 0x63, 0x65] = some "Alice" := by
  decide


/-- C8 amended: display-name decoding returns None on empty input; on a
first byte in 0x90..0x9f or 0xdc it returns the first element exactly when
the whole payload parses as a MessagePack array whose elements are each
nil, a byte-string or string, or a sequence of integers in 0..=255, and
whose first element is present, non-nil and valid UTF-8; it returns None
otherwise, in particular when any later element is of any other type (for
example a bare integer), even if the first element is a valid string; any
other payload is decoded as raw UTF-8. -/
theorem c8_display_name (data : List Nat) :
    parse_display_name data = displayNameSpec data := by
  cases data with
  | nil => rfl
  | cons b rest =>
    by_cases hb : ((0x90 ≤ b && b ≤ 0x9F) || b = 0xDC) = true
    case neg =>
      simp only [parse_display_name, displayNameSpec]
      rw [if_neg hb, if_neg hb]
    case pos =>
      rcases hdv : decodeVecOptBytes (b :: rest) with _ | elems
      · have hds : decodeVecOptString (b :: rest) = none := by
          rcases hds : decodeVecOptString (b :: rest) with _ | elems2
          · rfl
          · exfalso
            simp only [decodeVecOptString, Option.bind_eq_some,
              Option.map_eq_some'] at hds
            obtain ⟨⟨n, r⟩, h1, ⟨es, r1⟩, h2, h3⟩ := hds
            obtain ⟨es', he⟩ := readOptStringElems_sub n r es r1 h2
            simp [decodeVecOptBytes, h1, he] at hdv
        simp only [parse_display_name, displayNameSpec]
        rw [if_pos hb, if_pos hb, hdv]
        simp [secondNameParse, hds]
      · rcases hh : elems.head? with _ | o
        · have hel : elems = [] := by
            cases elems with
            | nil => rfl
            | cons x xs => simp at hh
          subst hel
          simp only [decodeVecOptBytes, Option.bind_eq_some,
            Option.map_eq_some'] at hdv
          obtain ⟨⟨n, r⟩, h1, ⟨es, r1⟩, h2, h3⟩ := hdv
          have hes : es = [] := by simpa using h3
          subst hes
          have hn : n = 0 := by
            simpa using (readOptBytesElems_length n r [] r1 h2).symm
          subst hn
          have hds : decodeVecOptString (b :: rest) = some [] := by
            simp [decodeVecOptString, h1, readOptStringElems]
          have hdv2 : decodeVecOptBytes (b :: rest) = some [] := by
            simp [decodeVecOptBytes, h1, h2]
          simp only [parse_display_name, displayNameSpec]
          rw [if_pos hb, if_pos hb, hdv2]
          simp [secondNameParse, hds]
        · cases o with
          | some bs =>
            simp [parse_display_name, displayNameSpec, hb, hdv, hh]
          | none =>
            obtain ⟨tail, htail⟩ : ∃ tail, elems = none :: tail := by
              cases elems with
              | nil => simp at hh
              | cons x xs =>
                simp at hh
                exact ⟨xs, by rw [hh]⟩
            subst htail
            simp only [decodeVecOptBytes, Option.bind_eq_some,
              Option.map_eq_some'] at hdv
            obtain ⟨⟨n, r⟩, h1, ⟨es, r1⟩, h2, h3⟩ := hdv
            have hes : es = none :: tail := by simpa using h3
            subst hes
            obtain ⟨n', r', hn, hr⟩ :=
              readOptBytesElems_head_none n r tail r1 h2
            subst hn; subst hr
            have hdv2 : decodeVecOptBytes (b :: rest) = some (none :: tail) := by
              simp [decodeVecOptBytes, h1, h2]
            have hsp : secondNameParse (b :: rest) = none := by
              unfold secondNameParse
              rcases hds : decodeVecOptString (b :: rest) with _ | elems2
              · rfl
              · simp only [decodeVecOptString, Option.bind_eq_some,
                  Option.map_eq_some'] at hds
                obtain ⟨⟨n2, r2⟩, hq1, ⟨es2, r3⟩, hq2, hq3⟩ := hds
                rw [h1] at hq1
                injection hq1 with hq1e
                injection hq1e with hna hra
                subst hna; subst hra
                rcases hq0 : readOptStringElems n' r' with _ | p
                · simp only [readOptStringElems, hq0] at hq2
                  simp at hq2
                · simp only [readOptStringElems, hq0] at hq2
                  simp only [Option.map_some'] at hq2
                  injection hq2 with hq2e
                  injection hq2e with hq2a hq2b
                  rw [← hq3, ← hq2a]
                  rfl
            simp only [parse_display_name, displayNameSpec]
            rw [if_pos hb, if_pos hb, hdv2]
            simp [hsp]


/-- Looking up the inserted key finds the inserted value. -/
theorem alLookup_insert_self {β : Type} (k : List Nat) (v : β) :
    ∀ l : List (List Nat × β), alLookup k (alInsert k v l) = some v := by
  intro l
  induction l with
  | nil => simp [alInsert, alLookup]
  | cons kv rest ih =>
    by_cases hk : kv.1 = k
    · simp [alInsert, alLookup, hk]
    · simp [alInsert, alLookup, hk, ih]

/-- Insertion replaces in place: the key list is unchanged when the key
was present and gains exactly the new key otherwise. -/
theorem alKeys_insert {β : Type} (k : List Nat) (v : β) :
    ∀ l : List (List Nat × β),
      alKeys (alInsert k v l) =
        if k ∈ alKeys l then alKeys l else alKeys l ++ [k] := by
  intro l
  induction l with
  | nil => simp [alInsert, alKeys]
  | cons kv rest ih =>
    by_cases hk : kv.1 = k
    · simp [alInsert, alKeys, hk]
    · have hne : ¬ k = kv.1 := fun he => hk he.symm
      simp only [alInsert, if_neg hk, alKeys, List.map_cons] at ih ⊢
      rw [ih]
      by_cases hm : k ∈ List.map Prod.fst rest
      · simp [hm, hne]
      · simp [hm, hne]


/-- C5: handle_announce classifies an announce as a node announce exactly
when the name hash equals the hash of the constant tuple nomadnetwork,
node; node announces are inserted into the registry keyed by the address
hash, so a re-announce updates the stored entry without creating a
duplicate key, and they broadcast on the node channel only; peer announces
leave the registry and its file untouched and broadcast on the peer
channel. -/
theorem c5_handle_announce (nameHashOf : String × String → List Nat)
    (serialize : List NodeInfo → String) (st : ClientState)
    (desc : DestinationDesc) (idy : IdentityInfo) (appData : List Nat) :
    is_node_announce_desc nameHashOf desc =
      decide (desc.nameHash = nameHashOf nomadNodeName)
    ∧ (is_node_announce_desc nameHashOf desc = true →
        (handleAnnounce nameHashOf serialize st desc idy appData).registry.nodes =
          alInsert desc.addressHash (announcedNode desc idy appData) st.registry.nodes
        ∧ alLookup desc.addressHash
            (handleAnnounce nameHashOf serialize st desc idy appData).registry.nodes =
            some (announcedNode desc idy appData)
        ∧ alKeys (handleAnnounce nameHashOf serialize st desc idy appData).registry.nodes =
            (if desc.addressHash ∈ alKeys st.registry.nodes then alKeys st.registry.nodes
             else alKeys st.registry.nodes ++ [desc.addressHash])
        ∧ (handleAnnounce nameHashOf serialize st desc idy appData).nodeBroadcasts =
            st.nodeBroadcasts ++ [announcedNode desc idy appData]
        ∧ (handleAnnounce nameHashOf serialize st desc idy appData).peerBroadcasts =
            st.peerBroadcasts)
    ∧ (is_node_announce_desc nameHashOf desc = false →
        (handleAnnounce nameHashOf serialize st desc idy appData).registry = st.registry
        ∧ (handleAnnounce nameHashOf serialize st desc idy appData).fsOps = st.fsOps
        ∧ (handleAnnounce nameHashOf serialize st desc idy appData).nodeBroadcasts =
            st.nodeBroadcasts
        ∧ (handleAnnounce nameHashOf serialize st desc idy appData).peerBroadcasts =
            st.peerBroadcasts ++ [announcedPeer desc idy appData]) := by
  refine ⟨rfl, ?_, ?_⟩
  · intro hn
    refine ⟨?_, ?_, ?_, ?_, ?_⟩
    · simp [handleAnnounce, hn, NodeRegistry.save, announcedNode]
    · simp only [handleAnnounce, hn, if_true, NodeRegistry.save]
      exact alLookup_insert_self desc.addressHash _ st.registry.nodes
    · simp only [handleAnnounce, hn, if_true, NodeRegistry.save]
      exact alKeys_insert desc.addressHash _ st.registry.nodes
    · simp [handleAnnounce, hn, NodeRegistry.save, announcedNode]
    · simp [handleAnnounce, hn, NodeRegistry.save]
  · intro hn
    refine ⟨?_, ?_, ?_, ?_⟩ <;> simp [handleAnnounce, hn, announcedPeer]


/-- C5 witness: the announce theorem evaluated on a concrete node announce
whose app_data encodes the display name as a one-element MessagePack array
holding the integer sequence [0x41]; the stored entry carries the decoded
name A. -/
theorem c5_handle_announce_witness :
    alLookup [7]
      (handleAnnounce (fun _ => []) (fun _ => "")
        { knownDestinations := []
          registry := { path := "p", nodes := [] }
          nodeBroadcasts := []
          peerBroadcasts := []
          fsOps := [] }
        { addressHash := [7], nameHash := [] }
        { public_key := [], verifying_key := [] } [0x91, 0x91, 0x41]).registry.nodes =
      some { hash := [7], name := "A",
             identity := { public_key := [], verifying_key := [] } } := by
  have h := ((c5_handle_announce (fun _ => []) (fun _ => "")
    { knownDestinations := []
      registry := { path := "p", nodes := [] }
      nodeBroadcasts := []
      peerBroadcasts := []
      fsOps := [] }
    { addressHash := [7], nameHash := [] }
    { public_key := [], verifying_key := [] } [0x91, 0x91, 0x41]).2.1 (by decide)).2.1
  rw [h]
  decide


/-- A bare terminal pair is a good trace. -/
theorem goodTrace_pair (st : PageStatus) (r : Except String String)
    (h1 : st.isTerminal = true) (h2 : StatusResultMatch st r) :
    GoodTrace [.status st, .result r] :=
  ⟨[], st, r, rfl, h1, by simp, h2⟩

/-- Prepending non-terminal events preserves goodness. -/
theorem goodTrace_append (xs t : List Ev)
    (hx : ∀ e ∈ xs, nonTermEv e = true) (ht : GoodTrace t) :
    GoodTrace (xs ++ t) := by
  obtain ⟨pre, st, r, h1, h2, h3, h4⟩ := ht
  refine ⟨xs ++ pre, st, r, by rw [h1, List.append_assoc], h2, ?_, h4⟩
  intro e he
  rcases List.mem_append.mp he with h | h
  · exact hx e h
  · exact h3 e h

/-- Prepending one non-terminal event preserves goodness. -/
theorem goodTrace_cons (e : Ev) (t : List Ev)
    (he : nonTermEv e = true) (ht : GoodTrace t) : GoodTrace (e :: t) :=
  goodTrace_append [e] t (by simpa using he) ht

/-- A fail pair is a good trace. -/
theorem goodTrace_failPair (m : String) : GoodTrace (failPair m) :=
  goodTrace_pair (.failed m) (.error m) rfl (Or.inr (Or.inr ⟨m, rfl, rfl⟩))

/-- The cancellation tail is a good trace. -/
theorem goodTrace_cancelTail : GoodTrace cancelTail :=
  goodTrace_cons .cancelObs _ rfl
    (goodTrace_pair .cancelled (.error "Cancelled") rfl (Or.inr (Or.inl ⟨rfl, rfl⟩)))

/-- The Data branch always ends in a matching terminal pair. -/
theorem goodTrace_dataBranch (v : MpVal) : GoodTrace (dataBranch v) := by
  unfold dataBranch
  cases parse_page_response v with
  | ok content => exact goodTrace_pair .complete (.ok content) rfl (Or.inl ⟨rfl, content, rfl⟩)
  | error e => exact goodTrace_failPair e

/-- The successful-assembly branch always ends in a matching terminal pair. -/
theorem goodTrace_assembleSuccess (d : MpVal) : GoodTrace (assembleSuccess d) := by
  unfold assembleSuccess
  refine goodTrace_cons (.op .sendPacket) _ rfl ?_
  cases parse_resource_content d with
  | ok content => exact goodTrace_pair .complete (.ok content) rfl (Or.inl ⟨rfl, content, rfl⟩)
  | error e => exact goodTrace_failPair e

/-- The response loop always produces a good trace. -/
theorem respLoop_good (ca : Option Nat) :
    ∀ (recvs : List Recv) (c : Nat) (curSet : Bool),
      GoodTrace (respLoop ca recvs c curSet) := by
  intro recvs
  induction recvs with
  | nil =>
    intro c curSet
    by_cases hc : isCancelledAt ca c = true
    · simp only [respLoop, hc, if_true]
      exact goodTrace_cancelTail
    · simp only [respLoop, hc, if_false, Bool.false_eq_true]
      exact goodTrace_failPair _
  | cons r rest ih =>
    intro c curSet
    by_cases hc : isCancelledAt ca c = true
    · simp only [respLoop, hc, if_true]
      exact goodTrace_cancelTail
    · simp only [respLoop, hc, if_false, Bool.false_eq_true]
      rcases r with ⟨mine, ev⟩ | _ | _
      · cases mine with
        | false => exact ih (c + 1) curSet
        | true =>
          cases ev with
          | activated => exact ih (c + 1) curSet
          | closed => exact goodTrace_failPair _
          | data payload => exact goodTrace_dataBranch payload
          | resourcePkt out =>
            cases out with
            | requestParts info req =>
              refine goodTrace_append _ _ ?_ (ih (c + 1) true)
              intro e he
              rcases List.mem_append.mp he with h | h
              · rcases info with _ | ⟨rc, tp⟩
                · simp at h
                · simp at h
                  subst h
                  simp [nonTermEv, Ev.isTerminalStatus, Ev.isResult, PageStatus.isTerminal]
              · cases req
                · simp at h
                · simp at h
                  subst h
                  simp [nonTermEv, Ev.isTerminalStatus, Ev.isResult]
            | assemble info asm =>
              refine goodTrace_append _ _ ?_ ?_
              · rcases info with _ | tp <;> simp [nonTermEv, Ev.isTerminalStatus,
                  Ev.isResult, PageStatus.isTerminal]
              · rcases asm with _ | d
                · exact goodTrace_failPair _
                · exact goodTrace_assembleSuccess d
            | dropped info =>
              refine goodTrace_append _ _ ?_ (ih (c + 1) curSet)
              · cases curSet with
                | false => simp
                | true =>
                  rcases info with _ | ⟨rc, tp⟩ <;> simp [nonTermEv, Ev.isTerminalStatus,
                    Ev.isResult, PageStatus.isTerminal]
      · exact goodTrace_failPair _
      · exact goodTrace_failPair _


/-- The path wait emits only has_path polls and cancellation observations. -/
theorem waitForPath_evs (ca : Option Nat) :
    ∀ (polls : List Bool) (c : Nat) (e : Ev),
      e ∈ (waitForPath ca polls c).2.1 → e = .op .hasPath ∨ e = .cancelObs := by
  intro polls
  induction polls with
  | nil => intro c e he; simp [waitForPath] at he
  | cons p rest ih =>
    intro c e he
    by_cases hc : isCancelledAt ca c = true
    · simp only [waitForPath, hc, if_true] at he
      simp at he
      right; exact he
    · by_cases hp : p = true
      · simp only [waitForPath, hc, hp, if_false, if_true, Bool.false_eq_true] at he
        simp at he
        left; exact he
      · simp only [waitForPath, hc, hp, if_false, Bool.false_eq_true] at he
        rcases List.mem_cons.mp he with h | h
        · left; exact h
        · exact ih (c + 1) e h

/-- The activation wait emits only cancellation observations. -/
theorem waitForLinkAct_evs (ca : Option Nat) :
    ∀ (recvs : List Recv) (c : Nat) (e : Ev),
      e ∈ (waitForLinkAct ca recvs c).2.1 → e = .cancelObs := by
  intro recvs
  induction recvs with
  | nil => intro c e he; simp [waitForLinkAct] at he
  | cons r rest ih =>
    intro c e he
    by_cases hc : isCancelledAt ca c = true
    · simp only [waitForLinkAct, hc, if_true] at he
      simpa using he
    · simp only [waitForLinkAct, hc, if_false, Bool.false_eq_true] at he
      rcases r with ⟨mine, ev⟩ | _ | _
      · cases mine with
        | false => exact ih (c + 1) e he
        | true =>
          cases ev with
          | activated => simp at he
          | closed => simp at he
          | data payload => exact ih (c + 1) e he
          | resourcePkt out => exact ih (c + 1) e he
      · simp at he
      · simp at he

/-- The post-link phase always produces a good trace. -/
theorem afterLink_good (s : Script) (c : Nat) : GoodTrace (afterLink s c) := by
  unfold afterLink
  refine goodTrace_cons _ _ rfl (goodTrace_cons _ _ rfl ?_)
  cases s.sendErr with
  | some e => exact goodTrace_failPair e
  | none =>
    exact goodTrace_cons _ _ rfl (goodTrace_cons _ _ rfl
      (respLoop_good s.cancelAt s.respRecvs c false))

/-- The connection phase always produces a good trace. -/
theorem connectPhase_good (s : Script) (c : Nat) : GoodTrace (connectPhase s c) := by
  unfold connectPhase
  by_cases hc : isCancelledAt s.cancelAt c = true
  · simp only [hc, if_true]
    exact goodTrace_cancelTail
  · simp only [hc, if_false, Bool.false_eq_true]
    refine goodTrace_cons _ _ rfl (goodTrace_cons _ _ rfl ?_)
    by_cases ha : s.alreadyActive = true
    · simp only [ha, if_true]
      exact afterLink_good s (c + 1)
    · simp only [ha, if_false, Bool.false_eq_true]
      refine goodTrace_append _ _ ?_ ?_
      · intro e he
        have := waitForLinkAct_evs s.cancelAt s.actRecvs (c + 1) e he
        subst this
        rfl
      · cases (waitForLinkAct s.cancelAt s.actRecvs (c + 1)).1 with
        | activated => exact afterLink_good s _
        | closed =>
          by_cases hc2 : isCancelledAt s.cancelAt
              (waitForLinkAct s.cancelAt s.actRecvs (c + 1)).2.2 = true
          · simp only [hc2, if_true]
            exact goodTrace_cancelTail
          · simp only [hc2, if_false, Bool.false_eq_true]
            exact goodTrace_failPair _
        | timeout =>
          by_cases hc2 : isCancelledAt s.cancelAt
              (waitForLinkAct s.cancelAt s.actRecvs (c + 1)).2.2 = true
          · simp only [hc2, if_true]
            exact goodTrace_cancelTail
          · simp only [hc2, if_false, Bool.false_eq_true]
            exact goodTrace_failPair _

/-- The post-path phase always produces a good trace. -/
theorem afterPathKnown_good (s : Script) (c : Nat) : GoodTrace (afterPathKnown s c) := by
  unfold afterPathKnown
  by_cases hc : isCancelledAt s.cancelAt c = true
  · simp only [hc, if_true]
    exact goodTrace_cancelTail
  · simp only [hc, if_false, Bool.false_eq_true]
    refine goodTrace_cons _ _ rfl (goodTrace_append _ _ ?_ (connectPhase_good s (c + 1)))
    intro e he
    cases hh : s.pathHops with
    | none => rw [hh] at he; simp at he
    | some hops =>
      rw [hh] at he
      simp at he
      subst he
      rfl

/-- C1: for every environment, the fetch task sends exactly one terminal
status (Complete, Cancelled or Failed), sends it before the single result
firing, fires the result exactly once, and the result agrees with the
terminal status: Ok on Complete, Err Cancelled on Cancelled, the failure
message on Failed. -/
theorem c1_terminal_protocol (s : Script) : GoodTrace (runFetch s) := by
  unfold runFetch
  by_cases hp : s.hasPath = true
  · simp only [hp, if_true]
    exact goodTrace_cons _ _ rfl (afterPathKnown_good s 0)
  · simp only [hp, if_false, Bool.false_eq_true]
    refine goodTrace_cons _ _ rfl (goodTrace_cons _ _ rfl (goodTrace_cons _ _ rfl
      (goodTrace_cons _ _ rfl ?_)))
    refine goodTrace_append _ _ ?_ ?_
    · intro e he
      rcases waitForPath_evs s.cancelAt s.pathPolls 0 e he with h | h <;> subst h <;> rfl
    · by_cases hw : (waitForPath s.cancelAt s.pathPolls 0).1 = true
      · simp only [hw, if_true]
        exact afterPathKnown_good s _
      · simp only [hw, if_false, Bool.false_eq_true]
        by_cases hc : isCancelledAt s.cancelAt (waitForPath s.cancelAt s.pathPolls 0).2.2 = true
        · simp only [hc, if_true]
          exact goodTrace_cancelTail
        · simp only [hc, if_false, Bool.false_eq_true]
          exact goodTrace_failPair _


/-- A fail pair contains neither a path request nor the RequestingPath status. -/
theorem failPair_no_pathreq (m : String) (e : Ev) (he : e ∈ failPair m) :
    e ≠ .op .requestPath ∧ e ≠ .status .requestingPath := by
  simp [failPair] at he
  rcases he with h | h <;> subst h <;> exact ⟨by simp, by simp⟩

/-- The cancellation tail contains neither a path request nor the
RequestingPath status. -/
theorem cancelTail_no_pathreq (e : Ev) (he : e ∈ cancelTail) :
    e ≠ .op .requestPath ∧ e ≠ .status .requestingPath := by
  simp [cancelTail] at he
  rcases he with h | h | h <;> subst h <;> exact ⟨by simp, by simp⟩

/-- The Data branch contains neither a path request nor the RequestingPath
status. -/
theorem dataBranch_no_pathreq (v : MpVal) (e : Ev) (he : e ∈ dataBranch v) :
    e ≠ .op .requestPath ∧ e ≠ .status .requestingPath := by
  unfold dataBranch at he
  rcases hpr : parse_page_response v with m | content
  · rw [hpr] at he
    exact failPair_no_pathreq m e (by simpa [failPair] using he)
  · rw [hpr] at he
    simp at he
    rcases he with h | h <;> subst h <;> exact ⟨by simp, by simp⟩

/-- The assembly branch contains neither a path request nor the
RequestingPath status. -/
theorem assembleSuccess_no_pathreq (d : MpVal) (e : Ev) (he : e ∈ assembleSuccess d) :
    e ≠ .op .requestPath ∧ e ≠ .status .requestingPath := by
  unfold assembleSuccess at he
  rcases List.mem_cons.mp he with h | h
  · subst h; exact ⟨by simp, by simp⟩
  · rcases hpr : parse_resource_content d with m | content
    · rw [hpr] at h
      exact failPair_no_pathreq m e (by simpa [failPair] using h)
    · rw [hpr] at h
      simp at h
      rcases h with h | h <;> subst h <;> exact ⟨by simp, by simp⟩

/-- The response loop never issues a path request nor re-sends
RequestingPath. -/
theorem respLoop_no_pathreq (ca : Option Nat) :
    ∀ (recvs : List Recv) (c : Nat) (curSet : Bool) (e : Ev),
      e ∈ respLoop ca recvs c curSet →
      e ≠ .op .requestPath ∧ e ≠ .status .requestingPath := by
  intro recvs
  induction recvs with
  | nil =>
    intro c curSet e he
    by_cases hc : isCancelledAt ca c = true
    · simp only [respLoop, hc, if_true] at he
      exact cancelTail_no_pathreq e he
    · simp only [respLoop, hc, if_false, Bool.false_eq_true] at he
      exact failPair_no_pathreq _ e he
  | cons r rest ih =>
    intro c curSet e he
    by_cases hc : isCancelledAt ca c = true
    · simp only [respLoop, hc, if_true] at he
      exact cancelTail_no_pathreq e he
    · simp only [respLoop, hc, if_false, Bool.false_eq_true] at he
      rcases r with ⟨mine, ev⟩ | _ | _
      · cases mine with
        | false => exact ih (c + 1) curSet e he
        | true =>
          cases ev with
          | activated => exact ih (c + 1) curSet e he
          | closed => exact failPair_no_pathreq _ e he
          | data payload => exact dataBranch_no_pathreq payload e he
          | resourcePkt out =>
            cases out with
            | requestParts info req =>
              rcases List.mem_append.mp he with h | h
              · rcases List.mem_append.mp h with h1 | h1
                · rcases info with _ | ⟨rc, tp⟩
                  · simp at h1
                  · simp at h1
                    subst h1
                    exact ⟨by simp, by simp⟩
                · cases req
                  · simp at h1
                  · simp at h1
                    subst h1
                    exact ⟨by simp, by simp⟩
              · exact ih (c + 1) true e h
            | assemble info asm =>
              rcases List.mem_append.mp he with h | h
              · rcases info with _ | tp
                · simp at h
                · simp at h
                  subst h
                  exact ⟨by simp, by simp⟩
              · rcases asm with _ | d
                · exact failPair_no_pathreq _ e h
                · exact assembleSuccess_no_pathreq d e h
            | dropped info =>
              rcases List.mem_append.mp he with h | h
              · cases curSet with
                | false => simp at h
                | true =>
                  rcases info with _ | ⟨rc, tp⟩
                  · simp at h
                  · simp at h
                    subst h
                    exact ⟨by simp, by simp⟩
              · exact ih (c + 1) curSet e h
      · exact failPair_no_pathreq _ e he
      · exact failPair_no_pathreq _ e he


/-- The post-link phase never issues a path request nor re-sends
RequestingPath. -/
theorem afterLink_no_pathreq (s : Script) (c : Nat) (e : Ev) (he : e ∈ afterLink s c) :
    e ≠ .op .requestPath ∧ e ≠ .status .requestingPath := by
  unfold afterLink at he
  rcases List.mem_cons.mp he with h | h
  · subst h; exact ⟨by simp, by simp⟩
  rcases List.mem_cons.mp h with h | h
  · subst h; exact ⟨by simp, by simp⟩
  rcases hse : s.sendErr with _ | m
  · rw [hse] at h
    rcases List.mem_cons.mp h with h | h
    · subst h; exact ⟨by simp, by simp⟩
    rcases List.mem_cons.mp h with h | h
    · subst h; exact ⟨by simp, by simp⟩
    exact respLoop_no_pathreq s.cancelAt s.respRecvs c false e h
  · rw [hse] at h
    exact failPair_no_pathreq m e h


/-- The connection phase never issues a path request nor re-sends
RequestingPath. -/
theorem connectPhase_no_pathreq (s : Script) (c : Nat) (e : Ev)
    (he : e ∈ connectPhase s c) :
    e ≠ .op .requestPath ∧ e ≠ .status .requestingPath := by
  unfold connectPhase at he
  by_cases hc : isCancelledAt s.cancelAt c = true
  · rw [if_pos hc] at he
    exact cancelTail_no_pathreq e he
  · rw [if_neg hc] at he
    rcases List.mem_cons.mp he with h | h
    · subst h; exact ⟨by simp, by simp⟩
    rcases List.mem_cons.mp h with h | h
    · subst h; exact ⟨by simp, by simp⟩
    by_cases ha : s.alreadyActive = true
    · rw [if_pos ha] at h
      exact afterLink_no_pathreq s (c + 1) e h
    · rw [if_neg ha] at h
      rcases List.mem_append.mp h with h1 | h1
      · have := waitForLinkAct_evs s.cancelAt s.actRecvs (c + 1) e h1
        subst this
        exact ⟨by simp, by simp⟩
      · split at h1
        · exact afterLink_no_pathreq s _ e h1
        · split at h1
          · exact cancelTail_no_pathreq e h1
          · exact failPair_no_pathreq _ e h1
        · split at h1
          · exact cancelTail_no_pathreq e h1
          · exact failPair_no_pathreq _ e h1

/-- The post-path phase never issues a path request nor re-sends
RequestingPath. -/
theorem afterPathKnown_no_pathreq (s : Script) (c : Nat) (e : Ev)
    (he : e ∈ afterPathKnown s c) :
    e ≠ .op .requestPath ∧ e ≠ .status .requestingPath := by
  unfold afterPathKnown at he
  by_cases hc : isCancelledAt s.cancelAt c = true
  · rw [if_pos hc] at he
    exact cancelTail_no_pathreq e he
  · rw [if_neg hc] at he
    rcases List.mem_cons.mp he with h | h
    · subst h; exact ⟨by simp, by simp⟩
    rcases List.mem_append.mp h with h1 | h1
    · rcases hh : s.pathHops with _ | hops
      · rw [hh] at h1; simp at h1
      · rw [hh] at h1
        simp at h1
        subst h1
        exact ⟨by simp, by simp⟩
    · exact connectPhase_no_pathreq s (c + 1) e h1

/-- C9: the status watch channel is created already holding RequestingPath,
so the first observed status is RequestingPath even on the cached-path fast
path, on which the task neither issues a path request nor re-sends the
RequestingPath status before PathFound. -/
theorem c9_initial_status (s : Script) (hp : s.hasPath = true) :
    initialStatus = .requestingPath
    ∧ (initialStatus :: statusesOf (runFetch s)).head? = some .requestingPath
    ∧ .op .requestPath ∉ runFetch s
    ∧ .status .requestingPath ∉ runFetch s := by
  refine ⟨rfl, rfl, ?_, ?_⟩
  · intro hmem
    unfold runFetch at hmem
    rw [if_pos hp] at hmem
    rcases List.mem_cons.mp hmem with h | h
    · simp at h
    · exact (afterPathKnown_no_pathreq s 0 _ h).1 rfl
  · intro hmem
    unfold runFetch at hmem
    rw [if_pos hp] at hmem
    rcases List.mem_cons.mp hmem with h | h
    · simp at h
    · exact (afterPathKnown_no_pathreq s 0 _ h).2 rfl

/-- C9 witness: the fast-path theorem evaluated on a concrete script with
a cached path. -/
theorem c9_initial_status_witness :
    .op .requestPath ∉ runFetch ⟨true, [], some 3, true, [], none, [], none⟩ :=
  (c9_initial_status ⟨true, [], some 3, true, [], none, [], none⟩ rfl).2.2.1


/-- The cancellation token is sticky: once observed set it stays set as
the check counter grows. -/
theorem isCancelled_mono (ca : Option Nat) (c c2 : Nat) (hle : c ≤ c2)
    (hc : isCancelledAt ca c = true) : isCancelledAt ca c2 = true := by
  cases ca with
  | none => simp [isCancelledAt] at hc
  | some k =>
    simp [isCancelledAt] at hc ⊢
    omega

/-- A trace with no observation vacuously has the cancellation shape. -/
theorem cs_of_not_mem (t : List Ev) (h : .cancelObs ∉ t) : CancelShape t :=
  fun hm => absurd hm h

/-- Prepending observation-free events preserves the cancellation shape. -/
theorem cs_append (xs t : List Ev) (hx : .cancelObs ∉ xs) (ht : CancelShape t) :
    CancelShape (xs ++ t) := by
  intro hm
  rcases List.mem_append.mp hm with h | h
  · exact absurd h hx
  · obtain ⟨pre, hp, hor⟩ := ht h
    refine ⟨xs ++ pre, ?_, ?_⟩
    · intro hmem
      rcases List.mem_append.mp hmem with h1 | h1
      · exact hx h1
      · exact hp h1
    · rcases hor with h1 | h1
      · left; rw [h1, List.append_assoc]
      · right; rw [h1, List.append_assoc]

/-- The cancellation tail itself has the cancellation shape. -/
theorem cs_cancelTail : CancelShape cancelTail :=
  fun _ => ⟨[], by simp, Or.inl rfl⟩

/-- A fail pair contains no cancellation observation. -/
theorem obs_not_mem_failPair (m : String) : .cancelObs ∉ failPair m := by
  simp [failPair]

/-- The Data branch contains no cancellation observation. -/
theorem obs_not_mem_dataBranch (v : MpVal) : .cancelObs ∉ dataBranch v := by
  unfold dataBranch
  rcases parse_page_response v with m | content
  · simp [failPair]
  · simp

/-- The assembly branch contains no cancellation observation. -/
theorem obs_not_mem_assembleSuccess (d : MpVal) : .cancelObs ∉ assembleSuccess d := by
  unfold assembleSuccess
  rcases parse_resource_content d with m | content
  · simp [failPair]
  · simp

/-- The response loop has the cancellation shape. -/
theorem respLoop_cs (ca : Option Nat) :
    ∀ (recvs : List Recv) (c : Nat) (curSet : Bool),
      CancelShape (respLoop ca recvs c curSet) := by
  intro recvs
  induction recvs with
  | nil =>
    intro c curSet
    by_cases hc : isCancelledAt ca c = true
    · simp only [respLoop, hc, if_true]
      exact cs_cancelTail
    · simp only [respLoop, hc, if_false, Bool.false_eq_true]
      exact cs_of_not_mem _ (obs_not_mem_failPair _)
  | cons r rest ih =>
    intro c curSet
    by_cases hc : isCancelledAt ca c = true
    · simp only [respLoop, hc, if_true]
      exact cs_cancelTail
    · simp only [respLoop, hc, if_false, Bool.false_eq_true]
      rcases r with ⟨mine, ev⟩ | _ | _
      · cases mine with
        | false => exact ih (c + 1) curSet
        | true =>
          cases ev with
          | activated => exact ih (c + 1) curSet
          | closed => exact cs_of_not_mem _ (obs_not_mem_failPair _)
          | data payload => exact cs_of_not_mem _ (obs_not_mem_dataBranch payload)
          | resourcePkt out =>
            cases out with
            | requestParts info req =>
              refine cs_append _ _ ?_ (ih (c + 1) true)
              intro hmem
              rcases List.mem_append.mp hmem with h | h
              · rcases info with _ | ⟨rc, tp⟩ <;> simp at h
              · cases req <;> simp at h
            | assemble info asm =>
              refine cs_append _ _ ?_ ?_
              · intro hmem
                rcases info with _ | tp <;> simp at hmem
              · rcases asm with _ | d
                · exact cs_of_not_mem _ (obs_not_mem_failPair _)
                · exact cs_of_not_mem _ (obs_not_mem_assembleSuccess d)
            | dropped info =>
              refine cs_append _ _ ?_ (ih (c + 1) curSet)
              intro hmem
              cases curSet with
              | false => simp at hmem
              | true => rcases info with _ | ⟨rc, tp⟩ <;> simp at hmem
      · exact cs_of_not_mem _ (obs_not_mem_failPair _)
      · exact cs_of_not_mem _ (obs_not_mem_failPair _)


/-- The path wait either emits no observation, or it observed the token:
then it reports no path, its trace ends in the observation, and the token
is still set at the returned counter. -/
theorem waitForPath_cases (ca : Option Nat) :
    ∀ (polls : List Bool) (c : Nat),
      (.cancelObs ∉ (waitForPath ca polls c).2.1)
      ∨ ((waitForPath ca polls c).1 = false
          ∧ ∃ xs, (.cancelObs ∉ xs)
            ∧ (waitForPath ca polls c).2.1 = xs ++ [.cancelObs]
            ∧ isCancelledAt ca (waitForPath ca polls c).2.2 = true) := by
  intro polls
  induction polls with
  | nil =>
    intro c
    left
    simp [waitForPath]
  | cons p rest ih =>
    intro c
    by_cases hc : isCancelledAt ca c = true
    · right
      refine ⟨?_, [], ?_, ?_, ?_⟩
      · simp [waitForPath, hc]
      · simp
      · simp [waitForPath, hc]
      · have h2 : (waitForPath ca (p :: rest) c).2.2 = c + 1 := by
          simp [waitForPath, hc]
        rw [h2]
        exact isCancelled_mono ca c (c + 1) (by omega) hc
    · by_cases hp : p = true
      · left
        simp [waitForPath, hc, hp]
      · simp only [waitForPath, hc, hp, if_false, Bool.false_eq_true]
        rcases ih (c + 1) with h | ⟨h1, xs, h2, h3, h4⟩
        · left
          intro hmem
          rcases List.mem_cons.mp hmem with h1 | h1
          · simp at h1
          · exact h h1
        · right
          refine ⟨h1, .op .hasPath :: xs, ?_, by simp [h3], h4⟩
          intro hmem
          rcases List.mem_cons.mp hmem with hh | hh
          · simp at hh
          · exact h2 hh

/-- The activation wait either emits no events, or it observed the token:
then it reports Closed, its trace is the single observation, and the token
is still set at the returned counter. -/
theorem waitForLinkAct_cases (ca : Option Nat) :
    ∀ (recvs : List Recv) (c : Nat),
      (waitForLinkAct ca recvs c).2.1 = []
      ∨ ((waitForLinkAct ca recvs c).1 = .closed
          ∧ (waitForLinkAct ca recvs c).2.1 = [.cancelObs]
          ∧ isCancelledAt ca (waitForLinkAct ca recvs c).2.2 = true) := by
  intro recvs
  induction recvs with
  | nil =>
    intro c
    left
    simp [waitForLinkAct]
  | cons r rest ih =>
    intro c
    by_cases hc : isCancelledAt ca c = true
    · right
      refine ⟨?_, ?_, ?_⟩
      · simp [waitForLinkAct, hc]
      · simp [waitForLinkAct, hc]
      · have h2 : (waitForLinkAct ca (r :: rest) c).2.2 = c + 1 := by
          simp [waitForLinkAct, hc]
        rw [h2]
        exact isCancelled_mono ca c (c + 1) (by omega) hc
    · simp only [waitForLinkAct, hc, if_false, Bool.false_eq_true]
      rcases r with ⟨mine, ev⟩ | _ | _
      · cases mine with
        | false => exact ih (c + 1)
        | true =>
          cases ev with
          | activated => left; rfl
          | closed => left; rfl
          | data payload => exact ih (c + 1)
          | resourcePkt out => exact ih (c + 1)
      · left; rfl
      · left; rfl

/-- The post-link phase has the cancellation shape. -/
theorem afterLink_cs (s : Script) (c : Nat) : CancelShape (afterLink s c) := by
  unfold afterLink
  refine cs_append [.status .linkEstablished, .status .sendingRequest] _ (by simp) ?_
  rcases s.sendErr with _ | m
  · exact cs_append [.op .sendPacket, .status .awaitingResponse] _ (by simp)
      (respLoop_cs s.cancelAt s.respRecvs c false)
  · exact cs_of_not_mem _ (obs_not_mem_failPair m)


/-- Prepending one observation-free event preserves the cancellation shape. -/
theorem cs_cons (e : Ev) (t : List Ev) (he : ¬ e = .cancelObs) (ht : CancelShape t) :
    CancelShape (e :: t) := by
  intro hm
  rcases List.mem_cons.mp hm with h | h
  · exact absurd h.symm he
  · obtain ⟨pre, hp, hor⟩ := ht h
    refine ⟨e :: pre, ?_, ?_⟩
    · intro hmem
      rcases List.mem_cons.mp hmem with h1 | h1
      · exact he h1.symm
      · exact hp h1
    · rcases hor with h1 | h1
      · left; rw [h1, List.cons_append]
      · right; rw [h1, List.cons_append]

/-- The connection phase has the cancellation shape. -/
theorem connectPhase_cs (s : Script) (c : Nat) : CancelShape (connectPhase s c) := by
  unfold connectPhase
  by_cases hc : isCancelledAt s.cancelAt c = true
  · rw [if_pos hc]
    exact cs_cancelTail
  · rw [if_neg hc]
    refine cs_cons _ _ (by simp) (cs_cons _ _ (by simp) ?_)
    by_cases ha : s.alreadyActive = true
    · rw [if_pos ha]
      exact afterLink_cs s (c + 1)
    · rw [if_neg ha]
      dsimp only
      rcases waitForLinkAct_cases s.cancelAt s.actRecvs (c + 1) with h | ⟨h1, h2, h3⟩
      · rw [h]
        refine cs_append [] _ (by simp) ?_
        split
        · exact afterLink_cs s _
        · split
          · exact cs_cancelTail
          · exact cs_of_not_mem _ (obs_not_mem_failPair _)
        · split
          · exact cs_cancelTail
          · exact cs_of_not_mem _ (obs_not_mem_failPair _)
      · rw [h2]
        split
        next hw => simp [hw] at h1
        next hw =>
          rw [if_pos h3]
          intro _
          exact ⟨[], by simp, Or.inr (by simp [cancelTail])⟩
        next hw => simp [hw] at h1

/-- The post-path phase has the cancellation shape. -/
theorem afterPathKnown_cs (s : Script) (c : Nat) : CancelShape (afterPathKnown s c) := by
  unfold afterPathKnown
  by_cases hc : isCancelledAt s.cancelAt c = true
  · rw [if_pos hc]
    exact cs_cancelTail
  · rw [if_neg hc]
    refine cs_cons _ _ (by simp) ?_
    refine cs_append _ _ ?_ (connectPhase_cs s (c + 1))
    intro hmem
    rcases hh : s.pathHops with _ | hops
    · rw [hh] at hmem
      simp at hmem
    · rw [hh] at hmem
      simp at hmem

/-- Every fetch run has the cancellation shape. -/
theorem runFetch_cs (s : Script) : CancelShape (runFetch s) := by
  unfold runFetch
  by_cases hp : s.hasPath = true
  · rw [if_pos hp]
    exact cs_cons _ _ (by simp) (afterPathKnown_cs s 0)
  · rw [if_neg hp]
    refine cs_cons _ _ (by simp) (cs_cons _ _ (by simp) (cs_cons _ _ (by simp)
      (cs_cons _ _ (by simp) ?_)))
    rcases waitForPath_cases s.cancelAt s.pathPolls 0 with h | ⟨h1, xs, h2, h3, h4⟩
    · refine cs_append _ _ h ?_
      by_cases hw : (waitForPath s.cancelAt s.pathPolls 0).1 = true
      · rw [if_pos hw]
        exact afterPathKnown_cs s _
      · rw [if_neg hw]
        by_cases hc2 : isCancelledAt s.cancelAt
            (waitForPath s.cancelAt s.pathPolls 0).2.2 = true
        · rw [if_pos hc2]
          exact cs_cancelTail
        · rw [if_neg hc2]
          exact cs_of_not_mem _ (obs_not_mem_failPair _)
    · rw [h3, h1]
      simp only [Bool.false_eq_true, if_false, if_pos h4]
      intro _
      refine ⟨xs, h2, Or.inr ?_⟩
      simp [cancelTail]

/-- C2: whenever a cooperative check observes the cancellation token set,
the task ends immediately: apart from at most one further observation by
the caller of a wait helper, the only remaining events are the Cancelled
status send and the Err Cancelled result firing; in particular no further
transport operation is performed. -/
theorem c2_cancellation (s : Script) (hobs : .cancelObs ∈ runFetch s) :
    ∃ pre, .cancelObs ∉ pre
      ∧ (runFetch s = pre ++ cancelTail
         ∨ runFetch s = pre ++ .cancelObs :: cancelTail) :=
  runFetch_cs s hobs

/-- C2 witness: the cancellation theorem evaluated on a concrete script
whose token is already set at the first check. -/
theorem c2_cancellation_witness :
    ∃ pre, .cancelObs ∉ pre
      ∧ (runFetch ⟨true, [], some 3, true, [], none, [], some 0⟩ = pre ++ cancelTail
         ∨ runFetch ⟨true, [], some 3, true, [], none, [], some 0⟩ =
             pre ++ .cancelObs :: cancelTail) :=
  c2_cancellation ⟨true, [], some 3, true, [], none, [], some 0⟩ (by decide)


/-- C6 amended: a closed link-event broadcast channel is fatal in both
waits, but with different messages: while awaiting the response the
request fails with Link events channel closed, while waiting for link
activation the closure is treated as a link closure and the request fails
with Link closed. -/
theorem c6_channel_closed (s1 : Script) (r1 : List Recv) (s2 : Script) (r2 : List Recv)
    (h1 : s1.hasPath = true) (h2 : s1.alreadyActive = false) (h3 : s1.cancelAt = none)
    (h4 : s1.actRecvs = .chanClosed :: r1)
    (h5 : s2.hasPath = true) (h6 : s2.alreadyActive = true) (h7 : s2.cancelAt = none)
    (h8 : s2.sendErr = none) (h9 : s2.respRecvs = .chanClosed :: r2) :
    lastStatus (runFetch s1) = some (.failed "Link closed")
    ∧ lastStatus (runFetch s2) = some (.failed "Link events channel closed") := by
  constructor
  · rcases hh : s1.pathHops with _ | hops <;>
      simp [runFetch, afterPathKnown, connectPhase, afterLink, waitForLinkAct,
        isCancelledAt, h1, h2, h3, h4, hh, lastStatus, statusesOf, failPair]
  · rcases hh : s2.pathHops with _ | hops <;>
      simp [runFetch, afterPathKnown, connectPhase, afterLink, respLoop,
        isCancelledAt, h5, h6, h7, h8, h9, hh, lastStatus, statusesOf, failPair]


/-- C6 counterexample: a run whose link-event channel closes during the
activation wait terminates with Failed Link closed, and the status Failed
Link events channel closed the claim requires never appears in its trace. -/
theorem c6_counterexample :
    lastStatus (runFetch ⟨true, [], some 3, false, [.chanClosed], none, [], none⟩) =
      some (.failed "Link closed")
    ∧ .status (.failed "Link events channel closed") ∉
        runFetch ⟨true, [], some 3, false, [.chanClosed], none, [], none⟩ := by
  decide

/-- C6 witness: the amended theorem evaluated on two concrete scripts. -/
theorem c6_channel_closed_witness :
    lastStatus (runFetch ⟨true, [], some 3, false, [.chanClosed], none, [], none⟩) =
      some (.failed "Link closed")
    ∧ lastStatus (runFetch ⟨true, [], some 3, true, [], none, [.chanClosed], none⟩) =
        some (.failed "Link events channel closed") :=
  c6_channel_closed ⟨true, [], some 3, false, [.chanClosed], none, [], none⟩ []
    ⟨true, [], some 3, true, [], none, [.chanClosed], none⟩ []
    rfl rfl rfl rfl rfl rfl rfl rfl rfl

end Nomad
